import Mathlib

/-!
Shallow embedding of the accounting-db repository (pcholakov/accounting-db).

Two subsystems are modelled, straight from the TypeScript sources:

* The transactional write builder for ledger transfers
  (`createTransfersBatch` / `createTransfer` in `src/lib/transactions.ts`,
  final variant at lines 466-555, identical to `src/unnamed/part_008`
  lines 141-245; and the earlier guarded variant at lines 237-326).

* The load-test driver (`LoadTestDriver` in `src/lib/load-test-runner.ts`
  and the timeout-aware variant in `src/unnamed/part_011` lines 242-456),
  embedded as a state-transformer over the observable timing trace of a run.

* The retry wrapper (`CreateTransfersLoadTest.retryStrategy` in
  `src/unnamed/part_002` lines 219-246 / `src/unnamed/part_000` lines 43-70),
  whose backoff engine (the external `p-retry` dependency) is modelled from
  the spec.

JavaScript `number` timestamps and durations are modelled as rationals;
histogram values (integer microseconds) as integers; counters as naturals.
-/

namespace AccountingDb

/-! ## Transfers and the transactional write builder -/

/-- A ledger transfer (`Transfer` interface, `src/lib/transactions.ts`
lines 344-356).  Only the fields the write builder reads are carried;
`id : String` matches `type IdType = string`, account ids and amounts are
the non-negative integers of the data model. -/
structure Transfer where
  id : String
  debit_account_id : ℕ
  credit_account_id : ℕ
  amount : ℕ
  ledger : ℕ
  timeout : ℕ
  deriving DecidableEq, Repr

/-- One item of a DynamoDB transactional write, as built by
`createTransfersBatch`:

* `put key` is the `Put` with `ConditionExpression "attribute_not_exists(pk)"`
  keyed by `pk = sk = key` (the put-if-absent on the transfer id);
* `update accountId debit_amount credit_amount` is the `Update` with
  `UpdateExpression "ADD debits_posted :debit_amount, credits_posted
  :credit_amount"` keyed by `account#<accountId>`, carrying the current
  `ExpressionAttributeValues`. -/
inductive TxItem where
  | put (key : String)
  | update (accountId : ℕ) (debit_amount credit_amount : ℕ)
  deriving DecidableEq, Repr

namespace TxItem

def isPut : TxItem → Bool
  | .put _ => true
  | .update _ _ _ => false

def isUpdate : TxItem → Bool
  | .put _ => false
  | .update _ _ _ => true

/-- The account key of an update item (junk value for puts). -/
def accountOf : TxItem → ℕ
  | .put _ => 0
  | .update a _ _ => a

end TxItem

/-- Effect of the debit coalescing mutation on one item: the update item
for account `a` gets `:debit_amount` incremented, everything else is left
alone. -/
def bumpDebitItem (a amt : ℕ) : TxItem → TxItem
  | .update b d c => if b = a then .update b (d + amt) c else .update b d c
  | .put k => .put k

/-- Effect of the credit coalescing mutation on one item. -/
def bumpCreditItem (a amt : ℕ) : TxItem → TxItem
  | .update b d c => if b = a then .update b d (c + amt) else .update b d c
  | .put k => .put k

/-- In-place mutation of the pending debit update for account `a`:
`debitAccountPendingTx.Update.ExpressionAttributeValues[":debit_amount"] +=
transfer.amount` (`src/lib/transactions.ts` lines 497-500).  The JS code
mutates the single object shared between `items` and the `pendingUpdates`
map; since each account has at most one update item in `items`, mapping
over the list is the same mutation. -/
def bumpDebit (items : List TxItem) (a : ℕ) (amt : ℕ) : List TxItem :=
  items.map (bumpDebitItem a amt)

/-- Symmetric in-place mutation of the pending credit update
(`src/lib/transactions.ts` lines 521-524). -/
def bumpCredit (items : List TxItem) (a : ℕ) (amt : ℕ) : List TxItem :=
  items.map (bumpCreditItem a amt)

/-- The builder state: the `items` list under construction and the key set
of the `pendingUpdates : Map<AccountId, ItemType>` (the map's values are
references into `items`, so only membership is state). -/
structure BuildState where
  items : List TxItem
  pendingUpdates : List ℕ
  deriving Repr

/-- The debit if-block of the per-transfer loop (`src/lib/transactions.ts`
lines 496-518): if the debit account already has a pending update, bump its
`:debit_amount` in place; otherwise append a fresh
`ADD debits_posted :amount, credits_posted 0` update and register it in the
map. -/
def coalesceDebit (items : List TxItem) (pend : List ℕ) (a amt : ℕ) :
    List TxItem × List ℕ :=
  if a ∈ pend then (bumpDebit items a amt, pend)
  else (items ++ [.update a amt 0], pend ++ [a])

/-- The credit if-block of the per-transfer loop (`src/lib/transactions.ts`
lines 520-542), symmetric to `coalesceDebit`. -/
def coalesceCredit (items : List TxItem) (pend : List ℕ) (a amt : ℕ) :
    List TxItem × List ℕ :=
  if a ∈ pend then (bumpCredit items a amt, pend)
  else (items ++ [.update a 0 amt], pend ++ [a])

/-- Body of the `batch.forEach((transfer) => ...)` loop of
`createTransfersBatch` (`src/lib/transactions.ts` lines 477-543, identical
to `src/unnamed/part_008` lines 150-222): push the put-if-absent for the
transfer, then coalesce the debit update (looking the account up before
inserting), then — after the debit insertion — coalesce the credit
update. -/
def processTransfer (st : BuildState) (t : Transfer) : BuildState :=
  let items := st.items ++ [.put ("transfer#" ++ t.id)]
  let afterDebit := coalesceDebit items st.pendingUpdates t.debit_account_id t.amount
  let afterCredit :=
    coalesceCredit afterDebit.1 afterDebit.2 t.credit_account_id t.amount
  ⟨afterCredit.1, afterCredit.2⟩

/-- The `TransactItems` list produced by `createTransfersBatch`
(`src/lib/transactions.ts` lines 466-555): fold the per-transfer step over
the batch starting from empty items and an empty pending-updates map. -/
def buildTransactItems (batch : List Transfer) : List TxItem :=
  (batch.foldl processTransfer ⟨[], []⟩).items

/-- `createTransfer` (`src/lib/transactions.ts` lines 458-464): delegates
to `createTransfersBatch` on the singleton batch. -/
def createTransfer (t : Transfer) : List TxItem :=
  buildTransactItems [t]

/-- Per-transfer loop body of the *guarded* variant of
`createTransfersBatch` (`src/lib/transactions.ts` lines 249-316).  It
differs from `processTransfer` in reading **both** pending-update map
entries before inserting the debit update (lines 262-263), so a transfer
whose debit and credit accounts coincide and are fresh produces two
separate update items. -/
def processTransferV2 (st : BuildState) (t : Transfer) : BuildState :=
  let items := st.items ++ [.put ("transfer#" ++ t.id)]
  let debitPending := t.debit_account_id ∈ st.pendingUpdates
  let creditPending := t.credit_account_id ∈ st.pendingUpdates
  let afterDebit : List TxItem × List ℕ :=
    if debitPending then
      (bumpDebit items t.debit_account_id t.amount, st.pendingUpdates)
    else
      (items ++ [.update t.debit_account_id t.amount 0],
       st.pendingUpdates ++ [t.debit_account_id])
  if creditPending then
    { items := bumpCredit afterDebit.1 t.credit_account_id t.amount,
      pendingUpdates := afterDebit.2 }
  else
    { items := afterDebit.1 ++ [.update t.credit_account_id 0 t.amount],
      pendingUpdates := afterDebit.2 ++ [t.credit_account_id] }

/-- The guarded `createTransfersBatch` variant (`src/lib/transactions.ts`
lines 237-326): `if (batch.length > 33) throw new Error("Assertion error:
Batch size too large")`, otherwise build and send the write.  The thrown
error is the `Except.error` case. -/
def createTransfersBatchV2 (batch : List Transfer) : Except String (List TxItem) :=
  if batch.length > 33 then
    .error "Assertion error: Batch size too large"
  else
    .ok (batch.foldl processTransferV2 ⟨[], []⟩).items

/-! Observers used to state properties of the built write. -/

/-- The put-if-absent items of a write, in order. -/
def putsOf (items : List TxItem) : List TxItem :=
  items.filter TxItem.isPut

/-- The balance-update items of a write, in order. -/
def updatesOf (items : List TxItem) : List TxItem :=
  items.filter TxItem.isUpdate

/-- The balance-update items of a write that target account `a`. -/
def updatesFor (items : List TxItem) (a : ℕ) : List TxItem :=
  items.filter fun it => it.isUpdate && it.accountOf = a

/-- All account ids a batch touches, as debit or credit side. -/
def batchAccounts (batch : List Transfer) : Finset ℕ :=
  (batch.map Transfer.debit_account_id ++ batch.map Transfer.credit_account_id).toFinset

/-- Sum of the amounts of the transfers in `batch` that debit account `a`. -/
def debitSum (batch : List Transfer) (a : ℕ) : ℕ :=
  ((batch.filter fun t => t.debit_account_id = a).map Transfer.amount).sum

/-- Sum of the amounts of the transfers in `batch` that credit account `a`. -/
def creditSum (batch : List Transfer) (a : ℕ) : ℕ :=
  ((batch.filter fun t => t.credit_account_id = a).map Transfer.amount).sum

/-! ### Basic facts about the item observers -/

@[simp] lemma isPut_put (k : String) : (TxItem.put k).isPut = true := rfl

@[simp] lemma isPut_update (a d c : ℕ) : (TxItem.update a d c).isPut = false := rfl

@[simp] lemma isUpdate_put (k : String) : (TxItem.put k).isUpdate = false := rfl

@[simp] lemma isUpdate_update (a d c : ℕ) : (TxItem.update a d c).isUpdate = true := rfl

@[simp] lemma accountOf_update (a d c : ℕ) : (TxItem.update a d c).accountOf = a := rfl

@[simp] lemma putsOf_append (xs ys : List TxItem) :
    putsOf (xs ++ ys) = putsOf xs ++ putsOf ys := List.filter_append ..

@[simp] lemma updatesOf_append (xs ys : List TxItem) :
    updatesOf (xs ++ ys) = updatesOf xs ++ updatesOf ys := List.filter_append ..

@[simp] lemma updatesFor_append (xs ys : List TxItem) (a : ℕ) :
    updatesFor (xs ++ ys) a = updatesFor xs a ++ updatesFor ys a := List.filter_append ..

@[simp] lemma putsOf_put (k : String) : putsOf [TxItem.put k] = [TxItem.put k] := rfl

@[simp] lemma putsOf_update (a d c : ℕ) : putsOf [TxItem.update a d c] = [] := rfl

@[simp] lemma updatesOf_put (k : String) : updatesOf [TxItem.put k] = [] := rfl

@[simp] lemma updatesOf_update (a d c : ℕ) :
    updatesOf [TxItem.update a d c] = [TxItem.update a d c] := rfl

@[simp] lemma updatesFor_put (k : String) (a : ℕ) : updatesFor [TxItem.put k] a = [] := rfl

@[simp] lemma putsOf_nil : putsOf [] = [] := rfl

@[simp] lemma putsOf_cons_put (k : String) (xs : List TxItem) :
    putsOf (TxItem.put k :: xs) = TxItem.put k :: putsOf xs := rfl

@[simp] lemma putsOf_cons_update (a d c : ℕ) (xs : List TxItem) :
    putsOf (TxItem.update a d c :: xs) = putsOf xs := rfl

@[simp] lemma updatesOf_nil : updatesOf [] = [] := rfl

@[simp] lemma updatesOf_cons_put (k : String) (xs : List TxItem) :
    updatesOf (TxItem.put k :: xs) = updatesOf xs := rfl

@[simp] lemma updatesOf_cons_update (a d c : ℕ) (xs : List TxItem) :
    updatesOf (TxItem.update a d c :: xs) = TxItem.update a d c :: updatesOf xs := rfl

lemma updatesFor_update (a d c b : ℕ) :
    updatesFor [TxItem.update a d c] b = if a = b then [TxItem.update a d c] else [] := by
  by_cases h : a = b <;> simp [updatesFor, List.filter, h]

/-! ### Bump lemmas: the in-place coalescing mutation seen through the observers -/

@[simp] lemma isPut_bumpDebitItem (a amt : ℕ) (it : TxItem) :
    (bumpDebitItem a amt it).isPut = it.isPut := by
  cases it with
  | put k => rfl
  | update b d c => by_cases h : b = a <;> simp [bumpDebitItem, h]

@[simp] lemma isPut_bumpCreditItem (a amt : ℕ) (it : TxItem) :
    (bumpCreditItem a amt it).isPut = it.isPut := by
  cases it with
  | put k => rfl
  | update b d c => by_cases h : b = a <;> simp [bumpCreditItem, h]

@[simp] lemma isUpdate_bumpDebitItem (a amt : ℕ) (it : TxItem) :
    (bumpDebitItem a amt it).isUpdate = it.isUpdate := by
  cases it with
  | put k => rfl
  | update b d c => by_cases h : b = a <;> simp [bumpDebitItem, h]

@[simp] lemma isUpdate_bumpCreditItem (a amt : ℕ) (it : TxItem) :
    (bumpCreditItem a amt it).isUpdate = it.isUpdate := by
  cases it with
  | put k => rfl
  | update b d c => by_cases h : b = a <;> simp [bumpCreditItem, h]

@[simp] lemma accountOf_bumpDebitItem (a amt : ℕ) (it : TxItem) :
    (bumpDebitItem a amt it).accountOf = it.accountOf := by
  cases it with
  | put k => rfl
  | update b d c => by_cases h : b = a <;> simp [bumpDebitItem, h]

@[simp] lemma accountOf_bumpCreditItem (a amt : ℕ) (it : TxItem) :
    (bumpCreditItem a amt it).accountOf = it.accountOf := by
  cases it with
  | put k => rfl
  | update b d c => by_cases h : b = a <;> simp [bumpCreditItem, h]

lemma bumpDebitItem_of_ne (a amt : ℕ) (it : TxItem) (h : it.accountOf ≠ a) :
    bumpDebitItem a amt it = it := by
  cases it with
  | put k => rfl
  | update b d c => simp [bumpDebitItem, TxItem.accountOf] at h ⊢; simp [h]

lemma bumpCreditItem_of_ne (a amt : ℕ) (it : TxItem) (h : it.accountOf ≠ a) :
    bumpCreditItem a amt it = it := by
  cases it with
  | put k => rfl
  | update b d c => simp [bumpCreditItem, TxItem.accountOf] at h ⊢; simp [h]

lemma bumpDebitItem_of_put (a amt : ℕ) (it : TxItem) (h : it.isPut = true) :
    bumpDebitItem a amt it = it := by
  cases it with
  | put k => rfl
  | update b d c => simp [TxItem.isPut] at h

lemma bumpCreditItem_of_put (a amt : ℕ) (it : TxItem) (h : it.isPut = true) :
    bumpCreditItem a amt it = it := by
  cases it with
  | put k => rfl
  | update b d c => simp [TxItem.isPut] at h

lemma putsOf_bumpDebit (xs : List TxItem) (a amt : ℕ) :
    putsOf (bumpDebit xs a amt) = putsOf xs := by
  rw [bumpDebit, putsOf, List.filter_map]
  rw [show TxItem.isPut ∘ bumpDebitItem a amt = TxItem.isPut from
    funext fun it => isPut_bumpDebitItem a amt it]
  calc (List.filter TxItem.isPut xs).map (bumpDebitItem a amt)
      = (List.filter TxItem.isPut xs).map id := by
        refine List.map_congr_left fun it hit => ?_
        exact bumpDebitItem_of_put a amt it (List.of_mem_filter hit)
    _ = putsOf xs := by rw [List.map_id]; rfl

lemma putsOf_bumpCredit (xs : List TxItem) (a amt : ℕ) :
    putsOf (bumpCredit xs a amt) = putsOf xs := by
  rw [bumpCredit, putsOf, List.filter_map]
  rw [show TxItem.isPut ∘ bumpCreditItem a amt = TxItem.isPut from
    funext fun it => isPut_bumpCreditItem a amt it]
  calc (List.filter TxItem.isPut xs).map (bumpCreditItem a amt)
      = (List.filter TxItem.isPut xs).map id := by
        refine List.map_congr_left fun it hit => ?_
        exact bumpCreditItem_of_put a amt it (List.of_mem_filter hit)
    _ = putsOf xs := by rw [List.map_id]; rfl

lemma updatesOf_map_bumpDebit (xs : List TxItem) (a amt : ℕ) :
    (updatesOf (bumpDebit xs a amt)).map TxItem.accountOf
      = (updatesOf xs).map TxItem.accountOf := by
  rw [bumpDebit, updatesOf, List.filter_map]
  rw [show TxItem.isUpdate ∘ bumpDebitItem a amt = TxItem.isUpdate from
    funext fun it => isUpdate_bumpDebitItem a amt it]
  rw [List.map_map]
  exact List.map_congr_left fun it _ => accountOf_bumpDebitItem a amt it

lemma updatesOf_map_bumpCredit (xs : List TxItem) (a amt : ℕ) :
    (updatesOf (bumpCredit xs a amt)).map TxItem.accountOf
      = (updatesOf xs).map TxItem.accountOf := by
  rw [bumpCredit, updatesOf, List.filter_map]
  rw [show TxItem.isUpdate ∘ bumpCreditItem a amt = TxItem.isUpdate from
    funext fun it => isUpdate_bumpCreditItem a amt it]
  rw [List.map_map]
  exact List.map_congr_left fun it _ => accountOf_bumpCreditItem a amt it

lemma updatesFor_bumpDebit (xs : List TxItem) (a amt b : ℕ) :
    updatesFor (bumpDebit xs a amt) b = (updatesFor xs b).map (bumpDebitItem a amt) := by
  rw [bumpDebit, updatesFor, List.filter_map]
  congr 1
  refine List.filter_congr fun it _ => ?_
  simp [Function.comp]

lemma updatesFor_bumpCredit (xs : List TxItem) (a amt b : ℕ) :
    updatesFor (bumpCredit xs a amt) b = (updatesFor xs b).map (bumpCreditItem a amt) := by
  rw [bumpCredit, updatesFor, List.filter_map]
  congr 1
  refine List.filter_congr fun it _ => ?_
  simp [Function.comp]

lemma updatesFor_bumpDebit_ne (xs : List TxItem) (a amt b : ℕ) (hb : b ≠ a) :
    updatesFor (bumpDebit xs a amt) b = updatesFor xs b := by
  rw [updatesFor_bumpDebit]
  calc (updatesFor xs b).map (bumpDebitItem a amt)
      = (updatesFor xs b).map id := by
        refine List.map_congr_left fun it hit => ?_
        have hacc : it.accountOf = b := by
          have h2 := List.of_mem_filter (p := fun (it : TxItem) => it.isUpdate && it.accountOf = b) hit
          simp only [Bool.and_eq_true, decide_eq_true_eq] at h2
          exact h2.2
        exact bumpDebitItem_of_ne a amt it (hacc ▸ hb)
    _ = updatesFor xs b := List.map_id _

lemma updatesFor_bumpCredit_ne (xs : List TxItem) (a amt b : ℕ) (hb : b ≠ a) :
    updatesFor (bumpCredit xs a amt) b = updatesFor xs b := by
  rw [updatesFor_bumpCredit]
  calc (updatesFor xs b).map (bumpCreditItem a amt)
      = (updatesFor xs b).map id := by
        refine List.map_congr_left fun it hit => ?_
        have hacc : it.accountOf = b := by
          have h2 := List.of_mem_filter (p := fun (it : TxItem) => it.isUpdate && it.accountOf = b) hit
          simp only [Bool.and_eq_true, decide_eq_true_eq] at h2
          exact h2.2
        exact bumpCreditItem_of_ne a amt it (hacc ▸ hb)
    _ = updatesFor xs b := List.map_id _

lemma updatesFor_bumpDebit_self (xs : List TxItem) (a amt : ℕ) (d c : ℕ)
    (h : updatesFor xs a = [TxItem.update a d c]) :
    updatesFor (bumpDebit xs a amt) a = [TxItem.update a (d + amt) c] := by
  rw [updatesFor_bumpDebit, h]
  simp [bumpDebitItem]

lemma updatesFor_bumpCredit_self (xs : List TxItem) (a amt : ℕ) (d c : ℕ)
    (h : updatesFor xs a = [TxItem.update a d c]) :
    updatesFor (bumpCredit xs a amt) a = [TxItem.update a d (c + amt)] := by
  rw [updatesFor_bumpCredit, h]
  simp [bumpCreditItem]

/-! ### Facts about the per-batch account sets and per-account sums -/

lemma mem_batchAccounts_append (done : List Transfer) (t : Transfer) (a : ℕ) :
    a ∈ batchAccounts (done ++ [t]) ↔
      a ∈ batchAccounts done ∨ a = t.debit_account_id ∨ a = t.credit_account_id := by
  simp only [batchAccounts, List.mem_toFinset, List.map_append, List.mem_append,
    List.map_cons, List.map_nil, List.mem_cons, List.not_mem_nil, or_false]
  tauto

lemma debitSum_append (done : List Transfer) (t : Transfer) (a : ℕ) :
    debitSum (done ++ [t]) a =
      debitSum done a + (if t.debit_account_id = a then t.amount else 0) := by
  by_cases h : t.debit_account_id = a <;> simp [debitSum, List.filter_append, h]

lemma creditSum_append (done : List Transfer) (t : Transfer) (a : ℕ) :
    creditSum (done ++ [t]) a =
      creditSum done a + (if t.credit_account_id = a then t.amount else 0) := by
  by_cases h : t.credit_account_id = a <;> simp [creditSum, List.filter_append, h]

lemma debitSum_eq_zero (done : List Transfer) (a : ℕ) (h : a ∉ batchAccounts done) :
    debitSum done a = 0 := by
  have : done.filter (fun t => t.debit_account_id = a) = [] := by
    refine List.filter_eq_nil_iff.mpr fun t ht => ?_
    simp only [decide_eq_true_eq]
    intro hta
    exact h (by simp [batchAccounts]; exact Or.inl ⟨t, ht, hta⟩)
  simp [debitSum, this]

lemma creditSum_eq_zero (done : List Transfer) (a : ℕ) (h : a ∉ batchAccounts done) :
    creditSum done a = 0 := by
  have : done.filter (fun t => t.credit_account_id = a) = [] := by
    refine List.filter_eq_nil_iff.mpr fun t ht => ?_
    simp only [decide_eq_true_eq]
    intro hta
    exact h (by simp [batchAccounts]; exact Or.inr ⟨t, ht, hta⟩)
  simp [creditSum, this]

/-! ### The coalescing invariant -/

/-- Invariant tying the builder state to the already-processed prefix
`done` of the batch: the puts are exactly the per-transfer put-if-absents
in order; the update items' account keys are exactly the keys of the
`pendingUpdates` map (which are distinct and are exactly the accounts the
prefix touches); and for each pending account the single update item
carries the accumulated debit/credit sums. -/
structure BuilderInv (st : BuildState) (done : List Transfer) : Prop where
  puts : putsOf st.items = done.map (fun t => TxItem.put ("transfer#" ++ t.id))
  updAccounts : (updatesOf st.items).map TxItem.accountOf = st.pendingUpdates
  nodup : st.pendingUpdates.Nodup
  mem : ∀ a, a ∈ st.pendingUpdates ↔ a ∈ batchAccounts done
  vals : ∀ a ∈ st.pendingUpdates,
    updatesFor st.items a = [TxItem.update a (debitSum done a) (creditSum done a)]
  novals : ∀ a, a ∉ st.pendingUpdates → updatesFor st.items a = []

lemma builderInv_nil : BuilderInv ⟨[], []⟩ [] := by
  refine ⟨rfl, rfl, List.nodup_nil, ?_, ?_, ?_⟩
  · intro a; simp [batchAccounts]
  · intro a ha; simp at ha
  · intro a _; rfl

/-- What one debit coalescing step does to the observers: the pending set
gains `d`, the per-account update singleton for `d` gains `amt` of debit,
everything else is untouched. -/
lemma coalesceDebit_spec (items : List TxItem) (pend : List ℕ) (d amt : ℕ)
    (fd fc : ℕ → ℕ)
    (hupd : (updatesOf items).map TxItem.accountOf = pend)
    (hnodup : pend.Nodup)
    (hvals : ∀ a ∈ pend, updatesFor items a = [TxItem.update a (fd a) (fc a)])
    (hnovals : ∀ a, a ∉ pend → updatesFor items a = [])
    (hzd : ∀ a, a ∉ pend → fd a = 0)
    (hzc : ∀ a, a ∉ pend → fc a = 0) :
    ((updatesOf (coalesceDebit items pend d amt).1).map TxItem.accountOf
        = (coalesceDebit items pend d amt).2)
    ∧ (coalesceDebit items pend d amt).2.Nodup
    ∧ (∀ a, a ∈ (coalesceDebit items pend d amt).2 ↔ (a ∈ pend ∨ a = d))
    ∧ (∀ a ∈ (coalesceDebit items pend d amt).2,
        updatesFor (coalesceDebit items pend d amt).1 a
          = [TxItem.update a (if a = d then fd a + amt else fd a) (fc a)])
    ∧ (∀ a, a ∉ (coalesceDebit items pend d amt).2 →
        updatesFor (coalesceDebit items pend d amt).1 a = [])
    ∧ putsOf (coalesceDebit items pend d amt).1 = putsOf items := by
  by_cases hd : d ∈ pend
  · simp only [coalesceDebit, if_pos hd]
    refine ⟨?_, hnodup, ?_, ?_, ?_, ?_⟩
    · rw [updatesOf_map_bumpDebit]; exact hupd
    · intro a
      constructor
      · exact fun h => Or.inl h
      · rintro (h | rfl)
        · exact h
        · exact hd
    · intro a ha
      by_cases had : a = d
      · subst had
        rw [if_pos rfl]
        exact updatesFor_bumpDebit_self items a amt (fd a) (fc a) (hvals a ha)
      · rw [if_neg had, updatesFor_bumpDebit_ne items d amt a had]
        exact hvals a ha
    · intro a ha
      have had : a ≠ d := fun h => ha (h ▸ hd)
      rw [updatesFor_bumpDebit_ne items d amt a had]
      exact hnovals a ha
    · exact putsOf_bumpDebit items d amt
  · simp only [coalesceDebit, if_neg hd]
    refine ⟨?_, ?_, ?_, ?_, ?_, ?_⟩
    · simp [hupd]
    · simp [List.nodup_append, hnodup, hd]
    · intro a; simp
    · intro a ha
      simp only [List.mem_append, List.mem_singleton] at ha
      rcases ha with ha | rfl
      · have had : a ≠ d := fun h => hd (h ▸ ha)
        rw [if_neg had]
        rw [updatesFor_append, updatesFor_update]
        rw [if_neg (Ne.symm had)]
        rw [hvals a ha, List.append_nil]
      · rw [if_pos rfl, hzd a hd, hzc a hd]
        rw [updatesFor_append, updatesFor_update, if_pos rfl]
        rw [hnovals a hd, List.nil_append, Nat.zero_add]
    · intro a ha
      simp only [List.mem_append, List.mem_singleton, not_or] at ha
      rw [updatesFor_append, updatesFor_update, if_neg (Ne.symm ha.2)]
      rw [hnovals a ha.1, List.append_nil]
    · simp

/-- Symmetric fact for one credit coalescing step. -/
lemma coalesceCredit_spec (items : List TxItem) (pend : List ℕ) (c amt : ℕ)
    (fd fc : ℕ → ℕ)
    (hupd : (updatesOf items).map TxItem.accountOf = pend)
    (hnodup : pend.Nodup)
    (hvals : ∀ a ∈ pend, updatesFor items a = [TxItem.update a (fd a) (fc a)])
    (hnovals : ∀ a, a ∉ pend → updatesFor items a = [])
    (hzd : ∀ a, a ∉ pend → fd a = 0)
    (hzc : ∀ a, a ∉ pend → fc a = 0) :
    ((updatesOf (coalesceCredit items pend c amt).1).map TxItem.accountOf
        = (coalesceCredit items pend c amt).2)
    ∧ (coalesceCredit items pend c amt).2.Nodup
    ∧ (∀ a, a ∈ (coalesceCredit items pend c amt).2 ↔ (a ∈ pend ∨ a = c))
    ∧ (∀ a ∈ (coalesceCredit items pend c amt).2,
        updatesFor (coalesceCredit items pend c amt).1 a
          = [TxItem.update a (fd a) (if a = c then fc a + amt else fc a)])
    ∧ (∀ a, a ∉ (coalesceCredit items pend c amt).2 →
        updatesFor (coalesceCredit items pend c amt).1 a = [])
    ∧ putsOf (coalesceCredit items pend c amt).1 = putsOf items := by
  by_cases hc : c ∈ pend
  · simp only [coalesceCredit, if_pos hc]
    refine ⟨?_, hnodup, ?_, ?_, ?_, ?_⟩
    · rw [updatesOf_map_bumpCredit]; exact hupd
    · intro a
      constructor
      · exact fun h => Or.inl h
      · rintro (h | rfl)
        · exact h
        · exact hc
    · intro a ha
      by_cases hac : a = c
      · subst hac
        rw [if_pos rfl]
        exact updatesFor_bumpCredit_self items a amt (fd a) (fc a) (hvals a ha)
      · rw [if_neg hac, updatesFor_bumpCredit_ne items c amt a hac]
        exact hvals a ha
    · intro a ha
      have hac : a ≠ c := fun h => ha (h ▸ hc)
      rw [updatesFor_bumpCredit_ne items c amt a hac]
      exact hnovals a ha
    · exact putsOf_bumpCredit items c amt
  · simp only [coalesceCredit, if_neg hc]
    refine ⟨?_, ?_, ?_, ?_, ?_, ?_⟩
    · simp [hupd]
    · simp [List.nodup_append, hnodup, hc]
    · intro a; simp
    · intro a ha
      simp only [List.mem_append, List.mem_singleton] at ha
      rcases ha with ha | rfl
      · have hac : a ≠ c := fun h => hc (h ▸ ha)
        rw [if_neg hac]
        rw [updatesFor_append, updatesFor_update]
        rw [if_neg (Ne.symm hac)]
        rw [hvals a ha, List.append_nil]
      · rw [if_pos rfl, hzd a hc, hzc a hc]
        rw [updatesFor_append, updatesFor_update, if_pos rfl]
        rw [hnovals a hc, List.nil_append, Nat.zero_add]
    · intro a ha
      simp only [List.mem_append, List.mem_singleton, not_or] at ha
      rw [updatesFor_append, updatesFor_update, if_neg (Ne.symm ha.2)]
      rw [hnovals a ha.1, List.append_nil]
    · simp

/-- The coalescing invariant is preserved by processing one more transfer. -/
lemma builderInv_step {st : BuildState} {done : List Transfer} (t : Transfer)
    (inv : BuilderInv st done) : BuilderInv (processTransfer st t) (done ++ [t]) := by
  obtain ⟨hputs, hupd, hnodup, hmem, hvals, hnovals⟩ := inv
  have hzd : ∀ a, a ∉ st.pendingUpdates → debitSum done a = 0 := fun a ha =>
    debitSum_eq_zero done a (fun h => ha ((hmem a).mpr h))
  have hzc : ∀ a, a ∉ st.pendingUpdates → creditSum done a = 0 := fun a ha =>
    creditSum_eq_zero done a (fun h => ha ((hmem a).mpr h))
  -- Step 0: the put appended for this transfer changes no update observer.
  set items1 : List TxItem := st.items ++ [TxItem.put ("transfer#" ++ t.id)] with hitems1
  have hupd1 : (updatesOf items1).map TxItem.accountOf = st.pendingUpdates := by
    rw [hitems1, updatesOf_append, updatesOf_put, List.append_nil, hupd]
  have hvals1 : ∀ a ∈ st.pendingUpdates,
      updatesFor items1 a = [TxItem.update a (debitSum done a) (creditSum done a)] := by
    intro a ha
    rw [hitems1, updatesFor_append, updatesFor_put, List.append_nil]
    exact hvals a ha
  have hnovals1 : ∀ a, a ∉ st.pendingUpdates → updatesFor items1 a = [] := by
    intro a ha
    rw [hitems1, updatesFor_append, updatesFor_put, List.append_nil]
    exact hnovals a ha
  -- Step 1: debit coalescing.
  obtain ⟨dupd, dnodup, dmem, dvals, dnovals, dputs⟩ :=
    coalesceDebit_spec items1 st.pendingUpdates t.debit_account_id t.amount
      (debitSum done) (creditSum done) hupd1 hnodup hvals1 hnovals1 hzd hzc
  set step1 := coalesceDebit items1 st.pendingUpdates t.debit_account_id t.amount
    with hstep1
  have dzd : ∀ a, a ∉ step1.2 →
      (if a = t.debit_account_id then debitSum done a + t.amount else debitSum done a) = 0 := by
    intro a ha
    have h1 : a ∉ st.pendingUpdates := fun h => ha ((dmem a).mpr (Or.inl h))
    have h2 : a ≠ t.debit_account_id := fun h => ha ((dmem a).mpr (Or.inr h))
    rw [if_neg h2]
    exact hzd a h1
  have dzc : ∀ a, a ∉ step1.2 → creditSum done a = 0 := by
    intro a ha
    exact hzc a (fun h => ha ((dmem a).mpr (Or.inl h)))
  -- Step 2: credit coalescing.
  obtain ⟨cupd, cnodup, cmem, cvals, cnovals, cputs⟩ :=
    coalesceCredit_spec step1.1 step1.2 t.credit_account_id t.amount
      (fun a => if a = t.debit_account_id then debitSum done a + t.amount else debitSum done a)
      (creditSum done) dupd dnodup dvals dnovals dzd dzc
  have hshape : processTransfer st t =
      ⟨(coalesceCredit step1.1 step1.2 t.credit_account_id t.amount).1,
       (coalesceCredit step1.1 step1.2 t.credit_account_id t.amount).2⟩ := rfl
  rw [hshape]
  refine ⟨?_, cupd, cnodup, ?_, ?_, ?_⟩
  · rw [cputs, dputs, hitems1, putsOf_append, putsOf_put, hputs, List.map_append,
      List.map_cons, List.map_nil]
  · intro a
    rw [cmem a, dmem a, mem_batchAccounts_append, hmem a]
    tauto
  · intro a ha
    rw [cvals a ha, debitSum_append, creditSum_append]
    congr 2
    · by_cases h : a = t.debit_account_id
      · subst h; rw [if_pos rfl, if_pos rfl]
      · rw [if_neg h, if_neg (fun hh => h hh.symm), Nat.add_zero]
    · by_cases h : a = t.credit_account_id
      · subst h; rw [if_pos rfl, if_pos rfl]
      · rw [if_neg h, if_neg (fun hh => h hh.symm), Nat.add_zero]
  · exact cnovals

/-- The full coalescing invariant of `createTransfersBatch`, obtained by
folding the per-transfer preservation over the whole batch. -/
lemma builderInv_foldl (batch : List Transfer) :
    BuilderInv (batch.foldl processTransfer ⟨[], []⟩) batch := by
  suffices h : ∀ (rest : List Transfer) (st : BuildState) (done : List Transfer),
      BuilderInv st done → BuilderInv (rest.foldl processTransfer st) (done ++ rest) by
    simpa using h batch ⟨[], []⟩ [] builderInv_nil
  intro rest
  induction rest with
  | nil => intro st done inv; simpa using inv
  | cons t rest ih =>
    intro st done inv
    have := ih (processTransfer st t) (done ++ [t]) (builderInv_step t inv)
    simpa using this

/-! ## Claim C1 -/

/-- **C1.** For every input list of transfers accepted by
`createTransfersBatch`, the produced transactional write contains exactly
`|T|` put-if-absent items — one per transfer, keyed by the transfer id,
conditioned on the key not pre-existing (the `TxItem.put` constructor) —
plus exactly one update item per distinct account id occurring in `T` as
debit or credit account; and for each such account `a` that single update
adds `Σ_{d(t)=a} t.amount` to `debits_posted` and `Σ_{c(t)=a} t.amount` to
`credits_posted`. -/
theorem createTransfersBatch_coalescing (batch : List Transfer) :
    putsOf (buildTransactItems batch)
        = batch.map (fun t => TxItem.put ("transfer#" ++ t.id))
    ∧ (putsOf (buildTransactItems batch)).length = batch.length
    ∧ (updatesOf (buildTransactItems batch)).length = (batchAccounts batch).card
    ∧ ∀ a ∈ batchAccounts batch,
        updatesFor (buildTransactItems batch) a
          = [TxItem.update a (debitSum batch a) (creditSum batch a)] := by
  obtain ⟨hputs, hupd, hnodup, hmem, hvals, _⟩ := builderInv_foldl batch
  simp only [buildTransactItems]
  refine ⟨hputs, ?_, ?_, ?_⟩
  · rw [hputs, List.length_map]
  · have h1 : (updatesOf (List.foldl processTransfer ⟨[], []⟩ batch).items).length
        = (List.foldl processTransfer ⟨[], []⟩ batch).pendingUpdates.length := by
      rw [← hupd, List.length_map]
    rw [h1, ← List.toFinset_card_of_nodup hnodup]
    congr 1
    ext a
    rw [List.mem_toFinset]
    exact hmem a
  · intro a ha
    exact hvals a ((hmem a).mpr ha)

/-- Seed batch 3 of the spec: transfers 1→2:10, 2→1:20, 1→3:30. -/
def c1SeedBatch : List Transfer :=
  [{ id := "a", debit_account_id := 1, credit_account_id := 2, amount := 10,
     ledger := 1, timeout := 0 },
   { id := "b", debit_account_id := 2, credit_account_id := 1, amount := 20,
     ledger := 1, timeout := 0 },
   { id := "c", debit_account_id := 1, credit_account_id := 3, amount := 30,
     ledger := 1, timeout := 0 }]

/-- Witness for C1: on the seed batch, account 1 is touched and its single
coalesced update adds 40 to `debits_posted` and 20 to `credits_posted`. -/
theorem createTransfersBatch_coalescing_witness :
    (1 : ℕ) ∈ batchAccounts c1SeedBatch
    ∧ updatesFor (buildTransactItems c1SeedBatch) 1 = [TxItem.update 1 40 20] := by
  refine ⟨by decide, ?_⟩
  have h := (createTransfersBatch_coalescing c1SeedBatch).2.2.2 1 (by decide)
  rw [h]
  rfl

/-! ## Claim C6 -/

/-- `putsOf` through one step of the guarded variant's loop body: exactly
one put-if-absent is appended per processed transfer. -/
lemma putsOf_processTransferV2 (st : BuildState) (t : Transfer) :
    putsOf (processTransferV2 st t).items
      = putsOf st.items ++ [TxItem.put ("transfer#" ++ t.id)] := by
  by_cases hd : t.debit_account_id ∈ st.pendingUpdates <;>
    by_cases hc : t.credit_account_id ∈ st.pendingUpdates <;>
      simp [processTransferV2, hd, hc, putsOf_bumpDebit, putsOf_bumpCredit]

lemma putsOf_foldl_processTransferV2 (batch : List Transfer) :
    ∀ st : BuildState,
      putsOf (batch.foldl processTransferV2 st).items
        = putsOf st.items ++ batch.map (fun t => TxItem.put ("transfer#" ++ t.id)) := by
  induction batch with
  | nil => intro st; simp
  | cons t rest ih =>
    intro st
    rw [List.foldl_cons, ih (processTransferV2 st t), putsOf_processTransferV2]
    simp

/-- The number of items in an accepted transactional write (`none` when the
builder threw). -/
def writeSize : Except String (List TxItem) → Option ℕ
  | .ok items => some items.length
  | .error _ => none

/-- A batch of 20 transfers over 40 pairwise-distinct accounts: it
coalesces to 20 puts + 40 updates = 60 distinct items, far above 33. -/
def c6WideBatch : List Transfer :=
  (List.range 20).map fun i =>
    { id := "t", debit_account_id := 2 * i, credit_account_id := 2 * i + 1,
      amount := 1, ledger := 1, timeout := 0 }

/-- Counterexample to C6 as stated: the guarded `createTransfersBatch`
accepts `c6WideBatch` (20 transfers, hence no throw) even though the write
it builds holds 60 distinct items after coalescing — the guard tests the
number of transfers, not the coalesced item count. -/
theorem c6_size_guard_counterexample :
    c6WideBatch.length = 20 ∧ writeSize (createTransfersBatchV2 c6WideBatch) = some 60 := by
  constructor
  · rfl
  · decide

/-- **C6 (amended).** The guarded `createTransfersBatch` variant rejects a
batch *of more than 33 transfers* with an error before anything is sent to
the sink, and accepts any batch of at most 33 transfers, turning it into a
single transactional write with one put-if-absent per transfer. -/
theorem createTransfersBatchV2_size_guard (batch : List Transfer) :
    (batch.length > 33 →
      createTransfersBatchV2 batch = .error "Assertion error: Batch size too large")
    ∧ (batch.length ≤ 33 →
      createTransfersBatchV2 batch
          = .ok (batch.foldl processTransferV2 ⟨[], []⟩).items
        ∧ putsOf (batch.foldl processTransferV2 ⟨[], []⟩).items
            = batch.map (fun t => TxItem.put ("transfer#" ++ t.id))) := by
  constructor
  · intro h
    rw [createTransfersBatchV2, if_pos h]
  · intro h
    refine ⟨by rw [createTransfersBatchV2, if_neg (by omega)], ?_⟩
    have := putsOf_foldl_processTransferV2 batch ⟨[], []⟩
    simpa using this

/-- Witness for C6 (amended): the seed batch of three transfers is within
the limit and is accepted as a write with its three puts. -/
theorem createTransfersBatchV2_size_guard_witness :
    c1SeedBatch.length ≤ 33
    ∧ createTransfersBatchV2 c1SeedBatch
        = .ok (c1SeedBatch.foldl processTransferV2 ⟨[], []⟩).items := by
  exact ⟨by decide, ((createTransfersBatchV2_size_guard c1SeedBatch).2 (by decide)).1⟩

/-! ## Claim C10 -/

/-- **C10.** `createTransfer` on a single transfer `t` is exactly
`createTransfersBatch` on the batch `[t]`: it delegates to it, and the
resulting write is the put-if-absent for `t` plus one coalesced balance
update per distinct account of `t` — two updates when the debit and credit
accounts differ, one combined update when they coincide. -/
theorem createTransfer_refines_batch (t : Transfer) :
    createTransfer t = buildTransactItems [t]
    ∧ buildTransactItems [t]
        = if t.debit_account_id = t.credit_account_id then
            [TxItem.put ("transfer#" ++ t.id),
             TxItem.update t.debit_account_id t.amount t.amount]
          else
            [TxItem.put ("transfer#" ++ t.id),
             TxItem.update t.debit_account_id t.amount 0,
             TxItem.update t.credit_account_id 0 t.amount] := by
  refine ⟨rfl, ?_⟩
  by_cases h : t.debit_account_id = t.credit_account_id
  · rw [if_pos h]
    simp [buildTransactItems, processTransfer, coalesceDebit, coalesceCredit,
      bumpCredit, bumpCreditItem, h]
  · rw [if_neg h]
    simp [buildTransactItems, processTransfer, coalesceDebit, coalesceCredit,
      Ne.symm h]

/-! ## The load-test driver

Embedding of the `LoadTestDriver` of `src/unnamed/part_011` lines 242-456
(the timeout-aware final variant; the measurement-loop recording lines are
verbatim identical to `src/lib/load-test-runner.ts` lines 86-107).
Timestamps and durations (JS `number` milliseconds) are rationals; the two
histograms are carried as the multiset (list) of recorded integer-microsecond
values.  The driver's behaviour is a fold of the measurement-loop body over
the observable timing trace of a run: per iteration the trace supplies the
`performance.now()` samples and whether `performIteration` threw, which is
exactly the information the loop body branches on. -/

/-- JS `Math.round`: half-up rounding, `⌊x + 1/2⌋`. -/
def jsRound (q : ℚ) : ℤ := ⌊q + 1 / 2⌋

/-- `LoadTestDriver.recordDuration` (`src/unnamed/part_011` lines 377-385):
positive microsecond values are recorded as-is, non-positive ones as 1µs
(the histogram rejects 0). Recording prepends to the value list. -/
def recordDuration (h : List ℤ) (v : ℤ) : List ℤ :=
  if 0 < v then v :: h else 1 :: h

/-- The value actually stored for a requested record of `v`. -/
def recordedValue (v : ℤ) : ℤ := if 0 < v then v else 1

lemma recordDuration_eq (h : List ℤ) (v : ℤ) :
    recordDuration h v = recordedValue v :: h := by
  rw [recordDuration, recordedValue]
  split_ifs <;> rfl

/-- The driver's mutable counters and histograms (fields of
`LoadTestDriver`, `src/unnamed/part_011` lines 252-260). -/
structure Counters where
  iterationCount : ℕ
  requestCount : ℕ
  errorIterations : ℕ
  missedIterations : ℕ
  requestLatencyMicros : List ℤ
  serviceTimeMicros : List ℤ
  workerRunTime : ℚ
  workerBackoffTime : ℚ
  workerBehindScheduleTime : ℚ
  deriving DecidableEq, Repr

/-- All-zero initial state (field initializers of `LoadTestDriver`). -/
def initCounters : Counters :=
  ⟨0, 0, 0, 0, [], [], 0, 0, 0⟩

/-- Constructor options (`src/unnamed/part_011` lines 264-273). -/
structure DriverOpts where
  concurrency : ℕ
  targetRequestRatePerSecond : ℚ
  durationSeconds : ℚ
  timeoutValueMs : Option ℚ
  skipWarmup : Option Bool
  deriving Repr

/-- The immutable configuration derived in the constructor. -/
structure Driver where
  concurrency : ℕ
  targetRps : ℚ
  overallDurationMs : ℚ
  requestsPerIteration : ℕ
  workerCycleTimeMs : ℚ
  warmupDurationMs : ℚ
  timeoutValueMs : ℚ
  benchmarkDurationMs : ℚ
  deriving Repr

/-- The `LoadTestDriver` constructor (`src/unnamed/part_011` lines 262-286);
`rpi` is `test.requestsPerIteration()`.  (When `targetRps = 0` the JS cycle
time is `Infinity`; the rational model yields `0` for that division, but
`run()` returns before ever using it, see `runDriver`.) -/
def mkDriver (rpi : ℕ) (opts : DriverOpts) : Driver :=
  let overallDurationMs := opts.durationSeconds * 1000
  let workerCycleTimeMs :=
    (1000 * opts.concurrency) / (opts.targetRequestRatePerSecond / rpi)
  let warmupDurationMs :=
    if opts.skipWarmup.getD false then 0 else min (overallDurationMs / 10) 10000
  { concurrency := opts.concurrency
    targetRps := opts.targetRequestRatePerSecond
    overallDurationMs := overallDurationMs
    requestsPerIteration := rpi
    workerCycleTimeMs := workerCycleTimeMs
    warmupDurationMs := warmupDurationMs
    timeoutValueMs := opts.timeoutValueMs.getD workerCycleTimeMs
    benchmarkDurationMs := overallDurationMs - warmupDurationMs }

/-- The `performance.now()` samples and outcome of one execution of the
measurement-loop body: `requestStart` (line 310), `completed` (line 321),
`nowAfter` (the sample inside `backoffTimeMillis`, line 331), and whether
`performIteration` threw. -/
structure IterObs where
  requestStart : ℚ
  completed : ℚ
  nowAfter : ℚ
  error : Bool
  deriving DecidableEq, Repr

/-- The missed-iteration loop (`src/unnamed/part_011` lines 342-362):
`for (missingValueMs = iterationDurationMillis - cycle; missingValueMs >=
cycle; missingValueMs -= cycle)` — each pass records the configured timeout
value into the request-latency histogram and counts one missed iteration.
The source loop diverges if `cycle ≤ 0` (unreachable: `run` requires a
positive rate); the embedding returns the state unchanged there. -/
def missedLoop (cycle tmo : ℚ) (missingValueMs : ℚ) (lat : List ℤ) (missed : ℕ) :
    List ℤ × ℕ :=
  if h : 0 < cycle ∧ cycle ≤ missingValueMs then
    missedLoop cycle tmo (missingValueMs - cycle)
      (recordDuration lat (jsRound (tmo * 1000))) (missed + 1)
  else
    (lat, missed)
termination_by (⌈missingValueMs / cycle⌉).toNat
decreasing_by
  have hc : (0:ℚ) < cycle := h.1
  have hm : cycle ≤ missingValueMs := h.2
  have hne : cycle ≠ 0 := ne_of_gt hc
  have h1 : (missingValueMs - cycle) / cycle = missingValueMs / cycle - 1 := by
    rw [sub_div, div_self hne]
  have h3 : (1:ℚ) ≤ missingValueMs / cycle := (one_le_div hc).mpr hm
  have h4 : (1:ℤ) ≤ ⌈missingValueMs / cycle⌉ := by
    have : (0:ℚ) < missingValueMs / cycle := lt_of_lt_of_le one_pos h3
    exact Int.ceil_pos.mpr this
  have h2 : ⌈(missingValueMs - cycle) / cycle⌉ = ⌈missingValueMs / cycle⌉ - 1 := by
    rw [h1, Int.ceil_sub_one]
  simp only [h2]
  omega

/-- The body of the measurement loop (`src/unnamed/part_011` lines 308-366)
as a transformer of the shared counters and the worker's `iterationStart`
variable, driven by one iteration's timing observations. -/
def measureStep (d : Driver) (st : Counters) (iterationStart : ℚ) (it : IterObs) :
    Counters × ℚ :=
  let st1 :=
    if it.error then { st with errorIterations := st.errorIterations + 1 }
    else { st with requestCount := st.requestCount + d.requestsPerIteration }
  let st2 := { st1 with iterationCount := st1.iterationCount + 1 }
  let iterationDurationMillis := it.completed - iterationStart
  let serviceTimeMillis := it.completed - it.requestStart
  let st3 := { st2 with
    requestLatencyMicros :=
      recordDuration st2.requestLatencyMicros (jsRound (iterationDurationMillis * 1000)) }
  let st4 := { st3 with
    serviceTimeMicros :=
      recordDuration st3.serviceTimeMicros (jsRound (serviceTimeMillis * 1000)) }
  let st5 := { st4 with workerRunTime := st4.workerRunTime + serviceTimeMillis }
  let nextIterationStartMillis := iterationStart + d.workerCycleTimeMs
  let backoffTimeMillis := nextIterationStartMillis - it.nowAfter
  if 0 < backoffTimeMillis then
    ({ st5 with workerBackoffTime := st5.workerBackoffTime + backoffTimeMillis },
     nextIterationStartMillis)
  else
    let st6 := { st5 with
      workerBehindScheduleTime := st5.workerBehindScheduleTime + -backoffTimeMillis }
    if d.workerCycleTimeMs < -backoffTimeMillis then
      let lm := missedLoop d.workerCycleTimeMs d.timeoutValueMs
        (iterationDurationMillis - d.workerCycleTimeMs)
        st6.requestLatencyMicros st6.missedIterations
      ({ st6 with requestLatencyMicros := lm.1, missedIterations := lm.2 },
       it.completed)
    else
      (st6, iterationStart)

/-- One pass of the warmup loop (`LoadTestDriver.doWarmup`,
`src/unnamed/part_011` lines 387-401): it calls `performIteration` inside
`try { } catch { }` and sleeps — it touches no counter and no histogram, so
on the driver state it is the identity whatever happened. -/
def doWarmupStep (st : Counters) (_ : IterObs) : Counters := st

/-- The final report assembled by `stop()` (`src/unnamed/part_011` lines
403-455); only the scalar fields the claims are about are carried (the
percentile blocks are functions of the histogram lists, which live in
`Counters`). -/
structure Report where
  iterations : ℕ
  requests : ℕ
  errorIterations : ℕ
  missedIterations : ℕ
  failedIterationsRatio : ℚ
  workerCycleTimeMillis : ℚ
  targetArrivalRateRatio : ℚ
  deriving DecidableEq, Repr

/-- `stop()`'s report fields from the final counters. -/
def mkReport (d : Driver) (st : Counters) : Report :=
  { iterations := st.iterationCount
    requests := st.requestCount
    errorIterations := st.errorIterations
    missedIterations := st.missedIterations
    failedIterationsRatio :=
      ((st.errorIterations : ℚ) + (st.missedIterations : ℚ))
        / ((st.iterationCount : ℚ) + (st.missedIterations : ℚ))
    workerCycleTimeMillis := d.workerCycleTimeMs
    targetArrivalRateRatio :=
      (st.requestCount : ℚ) * 1000 / d.benchmarkDurationMs / d.targetRps }

/-- The externally observable inputs of one `run()`: whether `setup()` /
`teardown()` threw, the warmup-phase iterations, and the interleaved
sequence of measurement-loop executions across the workers (the event loop
serialises each synchronous loop body, so the shared counters see them as a
sequence) together with the worker's initial `iterationStart` sample. -/
structure RunInput where
  setupError : Option String
  teardownError : Option String
  warmupIters : List IterObs
  startIterationStart : ℚ
  iters : List IterObs

/-- The outcome of a completed (non-throwing) `run()`. -/
structure RunResult where
  setupCalled : Bool
  teardownCalled : Bool
  counters : Counters
  report : Option Report
  deriving DecidableEq, Repr

/-- `LoadTestDriver.run()` (`src/unnamed/part_011` lines 288-375) followed
by `stop()`:

* `if (this.targetRps == 0) { return; }` — before `setup()` is ever called,
  `run` returns `undefined` (no report, no calls, untouched counters);
* a `setup()` failure aborts the run and surfaces;
* warmup iterations leave the driver state untouched;
* the workers fold the measurement-loop body over the iteration trace —
  iteration failures are data (`IterObs.error`), never control flow;
* `stop()` runs `teardown()` (whose failure surfaces) and builds the report. -/
def runDriver (d : Driver) (inp : RunInput) : Except String RunResult :=
  if d.targetRps = 0 then
    .ok ⟨false, false, initCounters, none⟩
  else
    match inp.setupError with
    | some e => .error e
    | none =>
      let warm := inp.warmupIters.foldl doWarmupStep initCounters
      let final :=
        (inp.iters.foldl (fun p it => measureStep d p.1 p.2 it)
          (warm, inp.startIterationStart)).1
      match inp.teardownError with
      | some e => .error e
      | none => .ok ⟨true, true, final, some (mkReport d final)⟩

/-! ### Driver lemmas -/

/-- Each pass of the missed-iteration loop records one copy of the timeout
value (as coerced by `recordDuration`) and counts one missed iteration. -/
lemma missedLoop_replicate (cycle tmo : ℚ) (m : ℚ) (lat : List ℤ) (missed : ℕ) :
    ∃ k, missedLoop cycle tmo m lat missed
      = (List.replicate k (recordedValue (jsRound (tmo * 1000))) ++ lat, missed + k) := by
  induction m, lat, missed using missedLoop.induct cycle tmo with
  | case1 m lat missed h ih =>
    obtain ⟨k, hk⟩ := ih
    refine ⟨k + 1, ?_⟩
    rw [missedLoop, dif_pos h, hk, recordDuration_eq]
    simp only [Prod.mk.injEq]
    constructor
    · rw [List.replicate_succ']
      simp
    · omega
  | case2 m lat missed h =>
    exact ⟨0, by rw [missedLoop, dif_neg h]; simp⟩

lemma measureStep_iterationCount (d : Driver) (st : Counters) (s : ℚ) (it : IterObs) :
    (measureStep d st s it).1.iterationCount = st.iterationCount + 1 := by
  by_cases he : it.error <;>
    simp only [measureStep, he, if_true, if_false, Bool.false_eq_true] <;>
    split_ifs <;> rfl

lemma measureStep_errorIterations (d : Driver) (st : Counters) (s : ℚ) (it : IterObs) :
    (measureStep d st s it).1.errorIterations
      = st.errorIterations + (if it.error then 1 else 0) := by
  by_cases he : it.error <;>
    simp only [measureStep, he, if_true, if_false, Bool.false_eq_true] <;>
    split_ifs <;> rfl

lemma measureStep_serviceTime (d : Driver) (st : Counters) (s : ℚ) (it : IterObs) :
    (measureStep d st s it).1.serviceTimeMicros
      = recordDuration st.serviceTimeMicros
          (jsRound ((it.completed - it.requestStart) * 1000)) := by
  by_cases he : it.error <;>
    simp only [measureStep, he, if_true, if_false, Bool.false_eq_true] <;>
    split_ifs <;> rfl

lemma measureStep_requestLatency (d : Driver) (st : Counters) (s : ℚ) (it : IterObs) :
    ∃ extra : List ℤ,
      (measureStep d st s it).1.requestLatencyMicros
        = extra ++ recordDuration st.requestLatencyMicros
            (jsRound ((it.completed - s) * 1000)) := by
  by_cases he : it.error <;>
    simp only [measureStep, he, if_true, if_false, Bool.false_eq_true] <;>
    split_ifs
  case pos => exact ⟨[], rfl⟩
  case pos =>
    obtain ⟨k, hk⟩ := missedLoop_replicate d.workerCycleTimeMs d.timeoutValueMs
      (it.completed - s - d.workerCycleTimeMs)
      (recordDuration st.requestLatencyMicros (jsRound ((it.completed - s) * 1000)))
      st.missedIterations
    exact ⟨List.replicate k (recordedValue (jsRound (d.timeoutValueMs * 1000))),
      by rw [hk]⟩
  case neg => exact ⟨[], rfl⟩
  case pos => exact ⟨[], rfl⟩
  case pos =>
    obtain ⟨k, hk⟩ := missedLoop_replicate d.workerCycleTimeMs d.timeoutValueMs
      (it.completed - s - d.workerCycleTimeMs)
      (recordDuration st.requestLatencyMicros (jsRound ((it.completed - s) * 1000)))
      st.missedIterations
    exact ⟨List.replicate k (recordedValue (jsRound (d.timeoutValueMs * 1000))),
      by rw [hk]⟩
  case neg => exact ⟨[], rfl⟩

lemma jsRound_mono {a b : ℚ} (h : a ≤ b) : jsRound a ≤ jsRound b :=
  Int.floor_le_floor (by linarith)

lemma recordedValue_mono {v w : ℤ} (h : v ≤ w) : recordedValue v ≤ recordedValue w := by
  rw [recordedValue, recordedValue]
  split_ifs <;> omega

lemma foldMeasure_iterationCount (d : Driver) (iters : List IterObs) :
    ∀ (st : Counters) (s : ℚ),
      ((iters.foldl (fun p it => measureStep d p.1 p.2 it) (st, s)).1).iterationCount
        = st.iterationCount + iters.length := by
  induction iters with
  | nil => intro st s; simp
  | cons it rest ih =>
    intro st s
    rw [List.foldl_cons]
    rw [ih (measureStep d st s it).1 (measureStep d st s it).2]
    rw [measureStep_iterationCount]
    simp [List.length_cons]
    omega

lemma foldMeasure_errorIterations (d : Driver) (iters : List IterObs) :
    ∀ (st : Counters) (s : ℚ),
      ((iters.foldl (fun p it => measureStep d p.1 p.2 it) (st, s)).1).errorIterations
        = st.errorIterations + iters.countP (·.error) := by
  induction iters with
  | nil => intro st s; simp
  | cons it rest ih =>
    intro st s
    rw [List.foldl_cons]
    rw [ih (measureStep d st s it).1 (measureStep d st s it).2]
    rw [measureStep_errorIterations]
    rw [List.countP_cons]
    by_cases he : it.error
    · simp [he]
      omega
    · simp [he]

lemma warmup_foldl_id (l : List IterObs) (st : Counters) :
    l.foldl doWarmupStep st = st := by
  induction l with
  | nil => rfl
  | cons it rest ih => rw [List.foldl_cons]; exact ih

/-! ## Claim C2 -/

/-- **C2.** For every iteration the driver decides was missed during the
measurement phase, it increments `missedIterations` by one and records a
request latency of `timeoutValueMs` converted to microseconds (through
`recordDuration`) into the request-latency histogram — one replicate per
missed iteration; `timeoutValueMs` defaults to the worker cycle time when
the caller does not supply it; and no service-time value is recorded for a
missed iteration (the service-time histogram receives exactly the one
record of the executed iteration, untouched by the missed loop). -/
theorem missed_iteration_accounting :
    (∀ (cycle tmo m : ℚ) (lat : List ℤ) (missed : ℕ), 0 < cycle →
      ∃ k, missedLoop cycle tmo m lat missed
        = (List.replicate k (recordedValue (jsRound (tmo * 1000))) ++ lat, missed + k))
    ∧ (∀ (rpi : ℕ) (opts : DriverOpts), opts.timeoutValueMs = none →
        (mkDriver rpi opts).timeoutValueMs = (mkDriver rpi opts).workerCycleTimeMs)
    ∧ (∀ (d : Driver) (st : Counters) (s : ℚ) (it : IterObs),
        (measureStep d st s it).1.serviceTimeMicros
          = recordDuration st.serviceTimeMicros
              (jsRound ((it.completed - it.requestStart) * 1000))) := by
  refine ⟨?_, ?_, ?_⟩
  · intro cycle tmo m lat missed _
    exact missedLoop_replicate cycle tmo m lat missed
  · intro rpi opts h
    rw [mkDriver]
    simp [h]
  · exact measureStep_serviceTime

/-- Witness for C2: a concrete missed-loop run with cycle 1 ms, timeout
2 ms, 2.5 ms of backlog: two missed iterations, each recording 2000 µs. -/
theorem missed_iteration_accounting_witness :
    (0:ℚ) < 1
    ∧ missedLoop 1 2 (5/2) [] 0 = ([2000, 2000], 2)
    ∧ (mkDriver 1 ⟨1, 1, 1, none, none⟩).timeoutValueMs
        = (mkDriver 1 ⟨1, 1, 1, none, none⟩).workerCycleTimeMs := by
  refine ⟨one_pos, ?_, ?_⟩
  · obtain ⟨k, hk⟩ := missed_iteration_accounting.1 1 2 (5/2) [] 0 one_pos
    rw [missedLoop, dif_pos (by norm_num : (0:ℚ) < 1 ∧ (1:ℚ) ≤ 5/2)]
    rw [missedLoop, dif_pos (by norm_num : (0:ℚ) < 1 ∧ (1:ℚ) ≤ 5/2 - 1)]
    rw [missedLoop, dif_neg (by norm_num : ¬((0:ℚ) < 1 ∧ (1:ℚ) ≤ 5/2 - 1 - 1))]
    norm_num [recordDuration, jsRound]
  · exact missed_iteration_accounting.2.1 1 ⟨1, 1, 1, none, none⟩ rfl

/-! ## Claim C3 -/

/-- **C3.** For every measurement-phase iteration executed by a worker, the
value recorded into the request-latency histogram (computed from the
intended `iterationStart`) is ≥ the value recorded into the service-time
histogram (computed from the actual `requestStart`) for that same
iteration, both ending at the same `completed` instant — given the clock
monotonicity fact that the intended start is not after the actual request
start. -/
theorem request_latency_ge_service_time (d : Driver) (st : Counters)
    (iterationStart : ℚ) (it : IterObs) (h : iterationStart ≤ it.requestStart) :
    ∃ extra : List ℤ,
      (measureStep d st iterationStart it).1.requestLatencyMicros
          = extra ++ recordedValue (jsRound ((it.completed - iterationStart) * 1000))
              :: st.requestLatencyMicros
      ∧ (measureStep d st iterationStart it).1.serviceTimeMicros
          = recordedValue (jsRound ((it.completed - it.requestStart) * 1000))
              :: st.serviceTimeMicros
      ∧ recordedValue (jsRound ((it.completed - it.requestStart) * 1000))
          ≤ recordedValue (jsRound ((it.completed - iterationStart) * 1000)) := by
  obtain ⟨extra, hextra⟩ := measureStep_requestLatency d st iterationStart it
  refine ⟨extra, ?_, ?_, ?_⟩
  · rw [hextra, recordDuration_eq]
  · rw [measureStep_serviceTime, recordDuration_eq]
  · refine recordedValue_mono (jsRound_mono ?_)
    have : it.completed - it.requestStart ≤ it.completed - iterationStart := by linarith
    nlinarith

/-- Witness for C3 at a concrete iteration: intended start 0, actual start
1 ms, completion 3 ms. -/
theorem request_latency_ge_service_time_witness :
    (0:ℚ) ≤ (1:ℚ)
    ∧ ∃ extra : List ℤ,
      (measureStep (mkDriver 1 ⟨1, 1, 1, none, none⟩) initCounters 0
          ⟨1, 3, 3, false⟩).1.requestLatencyMicros
          = extra ++ recordedValue (jsRound (((3:ℚ) - 0) * 1000)) :: []
      ∧ (measureStep (mkDriver 1 ⟨1, 1, 1, none, none⟩) initCounters 0
          ⟨1, 3, 3, false⟩).1.serviceTimeMicros
          = recordedValue (jsRound (((3:ℚ) - 1) * 1000)) :: []
      ∧ recordedValue (jsRound (((3:ℚ) - 1) * 1000))
          ≤ recordedValue (jsRound (((3:ℚ) - 0) * 1000)) := by
  exact ⟨by norm_num,
    request_latency_ge_service_time (mkDriver 1 ⟨1, 1, 1, none, none⟩) initCounters 0
      ⟨1, 3, 3, false⟩ (by norm_num)⟩

/-! ## Claim C9 -/

/-- **C9.** Every duration the driver records is stored in the histogram:
`recordDuration` (through which both the request-latency and the
service-time histograms are exclusively written, see `measureStep` and
`missedLoop`) stores a non-positive microsecond value as 1 µs instead of
dropping it, stores any positive value unchanged, and always grows the
histogram by exactly one value. -/
theorem recordDuration_never_drops :
    (∀ (h : List ℤ) (v : ℤ), v ≤ 0 → recordDuration h v = 1 :: h)
    ∧ (∀ (h : List ℤ) (v : ℤ), 0 < v → recordDuration h v = v :: h)
    ∧ (∀ (h : List ℤ) (v : ℤ), (recordDuration h v).length = h.length + 1) := by
  refine ⟨?_, ?_, ?_⟩
  · intro h v hv
    rw [recordDuration, if_neg (by omega)]
  · intro h v hv
    rw [recordDuration, if_pos hv]
  · intro h v
    rw [recordDuration]
    split_ifs <;> rfl

/-- Witness for C9: recording 0 µs stores 1 µs; recording 5 µs stores 5 µs. -/
theorem recordDuration_never_drops_witness :
    ((0:ℤ) ≤ 0 ∧ recordDuration [] 0 = [1])
    ∧ ((0:ℤ) < 5 ∧ recordDuration [] 5 = [5]) :=
  ⟨⟨le_refl 0, recordDuration_never_drops.1 [] 0 (le_refl 0)⟩,
   ⟨by omega, recordDuration_never_drops.2.1 [] 5 (by omega)⟩⟩

/-! ## Claim C4 -/

/-- The `failedIterationsRatio` field of the report of a run, when one was
produced. -/
def reportRatio : Except String RunResult → Option ℚ
  | .ok r => r.report.map Report.failedIterationsRatio
  | .error _ => none

/-- A driver at 1 item/s, concurrency 1 (cycle time 1000 ms). -/
def c4Driver : Driver := mkDriver 1 ⟨1, 1, 1, none, none⟩

/-- A run of two measurement iterations: the first throws, the second
succeeds; no iteration is missed. -/
def c4Input : RunInput :=
  ⟨none, none, [], 0, [⟨0, 1, 1, true⟩, ⟨1000, 1001, 1001, false⟩]⟩

/-- Counterexample to C4 as stated: on a run with one errored and one
successful measurement iteration (and no missed ones), the code reports
`failedIterationsRatio = 1/2` — the denominator is `iterationCount +
missedIterations` where `iterationCount` counts *all* measurement
iterations — whereas the claim's formula `(errors + missed) / (completed +
missed)` with `completed` counting only error-free iterations gives
`(1 + 0) / (1 + 0) = 1`. -/
theorem failed_ratio_counterexample :
    reportRatio (runDriver c4Driver c4Input) = some (1 / 2)
    ∧ ((1:ℚ) + 0) / ((1:ℚ) + 0) = 1
    ∧ ((1:ℚ) / 2) ≠ 1 := by
  refine ⟨?_, by norm_num, by norm_num⟩
  norm_num [reportRatio, runDriver, c4Driver, c4Input, mkDriver, mkReport,
    measureStep, recordDuration, jsRound, initCounters, doWarmupStep]

/-- **C4 (amended).** The `failedIterationsRatio` field of the report
returned by `run()` equals `(errorIterations + missedIterations) /
(iterationCount + missedIterations)`, where `iterationCount` counts *all*
measurement-phase iterations — the error-free ones *and* the errored ones
(it is incremented once per executed iteration regardless of outcome). -/
theorem failed_ratio_formula (d : Driver) (inp : RunInput) (r : RunResult)
    (rep : Report) (h : runDriver d inp = .ok r) (hrep : r.report = some rep) :
    rep.failedIterationsRatio
        = ((rep.errorIterations : ℚ) + (rep.missedIterations : ℚ))
            / ((rep.iterations : ℚ) + (rep.missedIterations : ℚ))
    ∧ rep.iterations = inp.iters.length
    ∧ rep.errorIterations = inp.iters.countP (·.error) := by
  rw [runDriver] at h
  split at h
  · simp only [Except.ok.injEq] at h
    rw [← h] at hrep
    simp at hrep
  · split at h
    · simp at h
    · split at h
      · simp at h
      · simp only [Except.ok.injEq] at h
        rw [← h] at hrep
        simp only [Option.some.injEq] at hrep
        rw [← hrep]
        refine ⟨rfl, ?_, ?_⟩
        · show ((inp.iters.foldl (fun p it => measureStep d p.1 p.2 it)
            (inp.warmupIters.foldl doWarmupStep initCounters,
              inp.startIterationStart)).1).iterationCount = inp.iters.length
          rw [warmup_foldl_id, foldMeasure_iterationCount]
          simp [initCounters]
        · show ((inp.iters.foldl (fun p it => measureStep d p.1 p.2 it)
            (inp.warmupIters.foldl doWarmupStep initCounters,
              inp.startIterationStart)).1).errorIterations = inp.iters.countP (·.error)
          rw [warmup_foldl_id, foldMeasure_errorIterations]
          simp [initCounters]

/-- Witness for C4 (amended), at the concrete two-iteration run. -/
theorem failed_ratio_formula_witness :
    ∃ r rep, runDriver c4Driver c4Input = .ok r ∧ r.report = some rep
      ∧ rep.failedIterationsRatio
          = ((rep.errorIterations : ℚ) + (rep.missedIterations : ℚ))
              / ((rep.iterations : ℚ) + (rep.missedIterations : ℚ))
      ∧ rep.iterations = c4Input.iters.length
      ∧ rep.errorIterations = c4Input.iters.countP (·.error) := by
  have hrun : ∃ r, runDriver c4Driver c4Input = .ok r := by
    norm_num [runDriver, c4Driver, c4Input, mkDriver]
  obtain ⟨r, hr⟩ := hrun
  have hrep : ∃ rep, r.report = some rep := by
    rw [runDriver] at hr
    split at hr
    · norm_num [c4Driver, mkDriver] at *
    · split at hr
      · simp [c4Input] at *
      · split at hr
        · simp [c4Input] at *
        · simp only [Except.ok.injEq] at hr
          exact ⟨_, by rw [← hr]⟩
  obtain ⟨rep, hrep⟩ := hrep
  exact ⟨r, rep, hr, hrep, failed_ratio_formula c4Driver c4Input r rep hr hrep⟩

/-! ## Claim C5 -/

/-- The zero-rate driver of seed scenario 1: rate 0, concurrency 4,
duration 5 s. -/
def c5Driver : Driver := mkDriver 1 ⟨4, 0, 5, none, none⟩

/-- An arbitrary input for the zero-rate run. -/
def c5Input : RunInput := ⟨none, none, [], 0, []⟩

/-- Counterexample to C5 as stated: with `targetRps = 0`, `run()` returns
immediately — but *without* calling `setup()` or `teardown()` (the guard
`if (this.targetRps == 0) return;` precedes the `await this.test.setup()`
call), contradicting the claim that it returns "after calling setup() and
teardown()". -/
theorem zero_rate_counterexample :
    c5Driver.targetRps = 0
    ∧ runDriver c5Driver c5Input
        = .ok ⟨false, false, initCounters, none⟩ := by
  constructor
  · norm_num [c5Driver, mkDriver]
  · rw [runDriver, if_pos (by norm_num [c5Driver, mkDriver])]

/-- **C5 (amended).** When the configured target request rate is 0, `run()`
performs no iterations and returns immediately *without* calling `setup()`
or `teardown()` and without producing a report; the counters
`completedIterations`/`iterationCount`, `missedIterations` and
`errorIterations` are all 0. -/
theorem zero_rate_short_circuit (d : Driver) (inp : RunInput)
    (h : d.targetRps = 0) :
    runDriver d inp = .ok ⟨false, false, initCounters, none⟩
    ∧ initCounters.iterationCount = 0
    ∧ initCounters.missedIterations = 0
    ∧ initCounters.errorIterations = 0 :=
  ⟨by rw [runDriver, if_pos h], rfl, rfl, rfl⟩

/-- Witness for C5 (amended) at the seed-scenario driver. -/
theorem zero_rate_short_circuit_witness :
    c5Driver.targetRps = 0
    ∧ runDriver c5Driver c5Input = .ok ⟨false, false, initCounters, none⟩ := by
  have h : c5Driver.targetRps = 0 := by norm_num [c5Driver, mkDriver]
  exact ⟨h, (zero_rate_short_circuit c5Driver c5Input h).1⟩

/-! ## Claim C7 -/

/-- **C7.** `run()` never propagates a `performIteration` failure: the
measurement loop treats failures as data (counted in `errorIterations`),
the warmup loop swallows them entirely (the run's outcome does not depend
on the warmup iterations at all), and the only failures `run()` can surface
are a `setup()` failure or a `teardown()` failure, which propagate
unchanged. -/
theorem run_error_containment (d : Driver) (inp : RunInput) :
    (∀ e, inp.setupError = some e → d.targetRps ≠ 0 → runDriver d inp = .error e)
    ∧ (∀ e, inp.setupError = none → inp.teardownError = some e →
        d.targetRps ≠ 0 → runDriver d inp = .error e)
    ∧ (inp.setupError = none → inp.teardownError = none →
        ∃ r, runDriver d inp = .ok r
          ∧ (d.targetRps ≠ 0 →
              r.counters.errorIterations = inp.iters.countP (·.error)))
    ∧ (∀ w w', runDriver d { inp with warmupIters := w }
        = runDriver d { inp with warmupIters := w' }) := by
  refine ⟨?_, ?_, ?_, ?_⟩
  · intro e hs hz
    rw [runDriver, if_neg hz, hs]
  · intro e hs ht hz
    rw [runDriver, if_neg hz, hs, ht]
  · intro hs ht
    by_cases hz : d.targetRps = 0
    · exact ⟨⟨false, false, initCounters, none⟩,
        by rw [runDriver, if_pos hz], fun h => absurd hz h⟩
    · refine ⟨_, by rw [runDriver, if_neg hz, hs, ht], fun _ => ?_⟩
      show ((inp.iters.foldl (fun p it => measureStep d p.1 p.2 it)
        (inp.warmupIters.foldl doWarmupStep initCounters,
          inp.startIterationStart)).1).errorIterations = inp.iters.countP (·.error)
      rw [warmup_foldl_id, foldMeasure_errorIterations]
      simp [initCounters]
  · intro w w'
    simp only [runDriver, warmup_foldl_id]

/-- Witness for C7 at concrete runs: a failing `setup` surfaces unchanged;
a run with one errored iteration completes with that error counted. -/
theorem run_error_containment_witness :
    (let inpFail : RunInput := ⟨some "boom", none, [], 0, []⟩
     inpFail.setupError = some "boom" ∧ c4Driver.targetRps ≠ 0
       ∧ runDriver c4Driver inpFail = .error "boom")
    ∧ (c4Input.setupError = none ∧ c4Input.teardownError = none
       ∧ ∃ r, runDriver c4Driver c4Input = .ok r
          ∧ (c4Driver.targetRps ≠ 0 →
              r.counters.errorIterations = c4Input.iters.countP (·.error))) := by
  have hz : c4Driver.targetRps ≠ 0 := by norm_num [c4Driver, mkDriver]
  constructor
  · exact ⟨rfl, hz,
      (run_error_containment c4Driver ⟨some "boom", none, [], 0, []⟩).1 "boom" rfl hz⟩
  · exact ⟨rfl, rfl, (run_error_containment c4Driver c4Input).2.2.1 rfl rfl⟩

/-! ## The retry wrapper

`CreateTransfersLoadTest.retryStrategy` (`src/unnamed/part_002` lines
219-246, identical in `src/unnamed/part_000` lines 43-70) wraps the batch
write in `pRetry(fn, { retries: 3, minTimeout: 20, factor: 1.2, randomize:
true, maxTimeout: 60, onFailedAttempt })`.  The `p-retry` package is an
external dependency, not part of this repository's sources, so its backoff
engine is modelled from the spec below; the telemetry accumulation around
it is translated from the source closure. -/

/-- Modelled from the spec: the `p-retry`/`node-retry` backoff delay that
the sources configure but whose implementation lives in the external
`p-retry` dependency — the delay before retry `attemptIdx + 1` is
`min(jitter · minTimeout · factor^attemptIdx, maxTimeout)`, with
`jitter ∈ [1, 2]` when `randomize` is set. -/
def pRetryDelay (minTimeout factor maxTimeout : ℚ) (jitter : ℚ) (attemptIdx : ℕ) : ℚ :=
  min (jitter * (minTimeout * factor ^ attemptIdx)) maxTimeout

/-- Attempt/delay telemetry of one wrapped call: total attempts executed,
failed attempts observed (`onFailedAttempt` fires once per failure,
including the final one), and the total observed inter-attempt delay (the
closure's `performance.now() - startTime` accumulation, equated with the
scheduled delays in this single-threaded model). -/
structure RetryStats where
  attemptsUsed : ℕ
  failedAttempts : ℕ
  totalDelay : ℚ
  deriving DecidableEq, Repr

/-- Modelled from the spec: the retry driver of the external `p-retry`
dependency.  `outcomes i` is the result of the `i`-th execution of the
wrapped operation and `delays i` the delay taken before attempt `i + 1`; on
failure with retries remaining it waits and re-executes, on failure with
none left it rethrows the last failure. -/
def runPRetryAux {α : Type} (delays : ℕ → ℚ) (outcomes : ℕ → Except String α) :
    ℕ → ℕ → RetryStats → Except String α × RetryStats
  | i, retriesLeft, stats =>
    match outcomes i with
    | .ok a => (.ok a, { stats with attemptsUsed := stats.attemptsUsed + 1 })
    | .error e =>
      let stats' : RetryStats :=
        { stats with attemptsUsed := stats.attemptsUsed + 1,
                     failedAttempts := stats.failedAttempts + 1 }
      match retriesLeft with
      | 0 => (.error e, stats')
      | n + 1 =>
          runPRetryAux delays outcomes (i + 1) n
            { stats' with totalDelay := stats'.totalDelay + delays i }

/-- Modelled from the spec: `pRetry(fn, opts)` with `opts.retries` retries
(so at most `retries + 1` attempts). -/
def runPRetry {α : Type} (retries : ℕ) (delays : ℕ → ℚ)
    (outcomes : ℕ → Except String α) : Except String α × RetryStats :=
  runPRetryAux delays outcomes 0 retries ⟨0, 0, 0⟩

/-- The delay sequence retryStrategy configures: base (`minTimeout`) 20 ms,
multiplier (`factor`) 1.2, per-delay cap (`maxTimeout`) 60 ms, with the
random jitter draw of attempt `i` supplied as `jitter i`. -/
def retryStrategyDelays (jitter : ℕ → ℚ) (i : ℕ) : ℚ :=
  pRetryDelay 20 (6 / 5) 60 (jitter i) i

/-- `CreateTransfersLoadTest.retryStrategy` (`src/unnamed/part_002` lines
219-246): run the operation under `pRetry` with `retries: 3, minTimeout:
20, factor: 1.2, randomize: true, maxTimeout: 60`, adding one to
`_conflicts_retryAttempts` per failed attempt (`onFailedAttempt`) and the
observed inter-attempt delays to `_conflicts_retryDelay`. -/
def retryStrategy {α : Type} (jitter : ℕ → ℚ) (outcomes : ℕ → Except String α)
    (conflictsRetryAttempts : ℕ) (conflictsRetryDelay : ℚ) :
    Except String α × ℕ × ℚ :=
  let r := runPRetry 3 (retryStrategyDelays jitter) outcomes
  (r.1, conflictsRetryAttempts + r.2.failedAttempts,
   conflictsRetryDelay + r.2.totalDelay)

/-! ### Retry lemmas -/

lemma runPRetryAux_attempts_le {α : Type} (delays : ℕ → ℚ)
    (outcomes : ℕ → Except String α) :
    ∀ (n i : ℕ) (stats : RetryStats),
      (runPRetryAux delays outcomes i n stats).2.attemptsUsed
        ≤ stats.attemptsUsed + n + 1 := by
  intro n
  induction n with
  | zero =>
    intro i stats
    rw [runPRetryAux]
    cases outcomes i <;> simp
  | succ m ih =>
    intro i stats
    rw [runPRetryAux]
    cases outcomes i with
    | ok a => simp
    | error e =>
      simp only
      calc (runPRetryAux delays outcomes (i + 1) m _).2.attemptsUsed
          ≤ stats.attemptsUsed + 1 + m + 1 := ih (i + 1) _
        _ ≤ stats.attemptsUsed + (m + 1) + 1 := by omega

lemma runPRetryAux_success {α : Type} (delays : ℕ → ℚ)
    (outcomes : ℕ → Except String α) (a : α) :
    ∀ (k i n : ℕ) (stats : RetryStats), k ≤ n →
      (∀ j < k, ∃ e, outcomes (i + j) = .error e) →
      outcomes (i + k) = .ok a →
      runPRetryAux delays outcomes i n stats
        = (.ok a, ⟨stats.attemptsUsed + k + 1, stats.failedAttempts + k,
            stats.totalDelay + ∑ j ∈ Finset.range k, delays (i + j)⟩) := by
  intro k
  induction k with
  | zero =>
    intro i n stats _ _ hok
    rw [runPRetryAux]
    simp only [Nat.add_zero] at hok
    rw [hok]
    simp
  | succ m ih =>
    intro i n stats hn hfail hok
    obtain ⟨e, he⟩ := hfail 0 (Nat.succ_pos m)
    rw [Nat.add_zero] at he
    obtain ⟨n', rfl⟩ : ∃ n', n = n' + 1 := ⟨n - 1, by omega⟩
    rw [runPRetryAux, he]
    simp only
    have hfail' : ∀ j < m, ∃ e', outcomes (i + 1 + j) = .error e' := by
      intro j hj
      have := hfail (j + 1) (by omega)
      rwa [show i + (j + 1) = i + 1 + j by omega] at this
    have hok' : outcomes (i + 1 + m) = .ok a := by
      rwa [show i + 1 + m = i + (m + 1) by omega]
    rw [ih (i + 1) n' _ (by omega) hfail' hok']
    simp only [Prod.mk.injEq, RetryStats.mk.injEq, true_and]
    refine ⟨by omega, by omega, ?_⟩
    rw [Finset.sum_range_succ' (fun j => delays (i + j))]
    have : ∀ j, delays (i + 1 + j) = delays (i + (j + 1)) := by
      intro j; congr 1; omega
    rw [Finset.sum_congr rfl (fun j _ => this j)]
    rw [add_assoc, add_comm (delays i)]
    simp

lemma runPRetryAux_allFail {α : Type} (delays : ℕ → ℚ)
    (outcomes : ℕ → Except String α) :
    ∀ (n i : ℕ) (stats : RetryStats) (e : String),
      (∀ j < n, ∃ e', outcomes (i + j) = .error e') →
      outcomes (i + n) = .error e →
      runPRetryAux delays outcomes i n stats
        = (.error e, ⟨stats.attemptsUsed + n + 1, stats.failedAttempts + n + 1,
            stats.totalDelay + ∑ j ∈ Finset.range n, delays (i + j)⟩) := by
  intro n
  induction n with
  | zero =>
    intro i stats e _ herr
    rw [Nat.add_zero] at herr
    rw [runPRetryAux, herr]
    simp
  | succ m ih =>
    intro i stats e hfail herr
    obtain ⟨e0, he0⟩ := hfail 0 (Nat.succ_pos m)
    rw [Nat.add_zero] at he0
    rw [runPRetryAux, he0]
    simp only
    have hfail' : ∀ j < m, ∃ e', outcomes (i + 1 + j) = .error e' := by
      intro j hj
      have := hfail (j + 1) (by omega)
      rwa [show i + (j + 1) = i + 1 + j by omega] at this
    have herr' : outcomes (i + 1 + m) = .error e := by
      rwa [show i + 1 + m = i + (m + 1) by omega]
    rw [ih (i + 1) _ e hfail' herr']
    simp only [Prod.mk.injEq, RetryStats.mk.injEq, true_and]
    refine ⟨by omega, by omega, ?_⟩
    rw [Finset.sum_range_succ' (fun j => delays (i + j))]
    have : ∀ j, delays (i + 1 + j) = delays (i + (j + 1)) := by
      intro j; congr 1; omega
    rw [Finset.sum_congr rfl (fun j _ => this j)]
    rw [add_assoc, add_comm (delays i)]
    simp

/-! ## Claim C8 -/

/-- **C8.** The retry wrapper around a failing operation performs at most 4
attempts in total (3 retries), with exponential backoff of base 20 ms,
multiplier 1.2, random jitter in `[1, 2]` applied to each delay, and each
individual delay capped at 60 ms; after the 4th failed attempt the last
failure propagates to the caller; and the wrapper accumulates the observed
(failed-)attempt count and retry delay into the workload's telemetry
counters `_conflicts_retryAttempts` / `_conflicts_retryDelay`. -/
theorem retry_wrapper_bounded_backoff {α : Type} (jitter : ℕ → ℚ)
    (outcomes : ℕ → Except String α) (attempts0 : ℕ) (delay0 : ℚ) :
    (runPRetry 3 (retryStrategyDelays jitter) outcomes).2.attemptsUsed ≤ 4
    ∧ (∀ e₀ e₁ e₂ e₃, outcomes 0 = .error e₀ → outcomes 1 = .error e₁ →
        outcomes 2 = .error e₂ → outcomes 3 = .error e₃ →
        runPRetry 3 (retryStrategyDelays jitter) outcomes
          = (.error e₃, ⟨4, 4,
              retryStrategyDelays jitter 0 + retryStrategyDelays jitter 1
                + retryStrategyDelays jitter 2⟩))
    ∧ (∀ i, retryStrategyDelays jitter i = min (jitter i * (20 * (6/5) ^ i)) 60)
    ∧ (∀ i, retryStrategyDelays jitter i ≤ 60)
    ∧ (∀ i, 1 ≤ jitter i → min (20 * (6/5) ^ i) 60 ≤ retryStrategyDelays jitter i)
    ∧ retryStrategy jitter outcomes attempts0 delay0
        = ((runPRetry 3 (retryStrategyDelays jitter) outcomes).1,
           attempts0
             + (runPRetry 3 (retryStrategyDelays jitter) outcomes).2.failedAttempts,
           delay0
             + (runPRetry 3 (retryStrategyDelays jitter) outcomes).2.totalDelay)
    ∧ (∀ (k : ℕ) (a : α), k ≤ 3 → (∀ j < k, ∃ e, outcomes j = .error e) →
        outcomes k = .ok a →
        runPRetry 3 (retryStrategyDelays jitter) outcomes
          = (.ok a, ⟨k + 1, k,
              ∑ j ∈ Finset.range k, retryStrategyDelays jitter j⟩)) := by
  refine ⟨?_, ?_, ?_, ?_, ?_, rfl, ?_⟩
  · have := runPRetryAux_attempts_le (retryStrategyDelays jitter) outcomes 3 0 ⟨0, 0, 0⟩
    simpa [runPRetry] using this
  · intro e₀ e₁ e₂ e₃ h0 h1 h2 h3
    have hfail : ∀ j < 3, ∃ e', outcomes (0 + j) = .error e' := by
      intro j hj
      interval_cases j
      · exact ⟨e₀, h0⟩
      · exact ⟨e₁, h1⟩
      · exact ⟨e₂, h2⟩
    have := runPRetryAux_allFail (retryStrategyDelays jitter) outcomes 3 0 ⟨0, 0, 0⟩
      e₃ hfail (by simpa using h3)
    rw [runPRetry, this]
    simp [Finset.sum_range_succ]
  · intro i; rfl
  · intro i
    exact min_le_right _ _
  · intro i hj
    rw [retryStrategyDelays, pRetryDelay]
    have h1 : (0:ℚ) ≤ 20 * (6/5) ^ i := by positivity
    refine le_min (le_trans (min_le_left _ _) ?_) (min_le_right _ _)
    nlinarith
  · intro k a hk hfail hok
    have := runPRetryAux_success (retryStrategyDelays jitter) outcomes a k 0 3 ⟨0, 0, 0⟩
      hk (by simpa using hfail) (by simpa using hok)
    rw [runPRetry, this]
    simp

/-- Witness for C8: a run whose first attempt fails and second succeeds —
two attempts used, one failed attempt and one delay accumulated into the
telemetry (seed scenario 4). -/
theorem retry_wrapper_bounded_backoff_witness :
    (fun i => if i = 0 then Except.error "conflict" else Except.ok (0 : ℕ)) 0
        = Except.error "conflict"
    ∧ runPRetry 3 (retryStrategyDelays fun _ => 1)
        (fun i => if i = 0 then Except.error "conflict" else Except.ok (0 : ℕ))
        = (.ok 0, ⟨2, 1, 20⟩) := by
  refine ⟨rfl, ?_⟩
  have h := (retry_wrapper_bounded_backoff (fun _ => 1)
    (fun i => if i = 0 then Except.error "conflict" else Except.ok (0 : ℕ))
    0 0).2.2.2.2.2.2 1 0 (by omega)
    (by intro j hj; interval_cases j; exact ⟨"conflict", rfl⟩) rfl
  rw [h]
  norm_num [Finset.sum_range_succ, retryStrategyDelays, pRetryDelay]

end AccountingDb
